import Mathlib

/-!
The lkm_usb driver: reference-counted lifecycle of the USB device record.

A shallow embedding of `src/lkm_usb.c`.  The driver keeps one `struct lkm_usb_s`
per bound USB interface; the record is shared between the interface (driver
data pointer), and every `struct file` whose `private_data` points at it.  Its
lifetime is governed by a `kref`.

Modelling decisions

* Records live in a heap, a list indexed by address.  `kzalloc` appends a
  zero-filled record; `kfree` (inside `lkm_usb_ref_delete`) is recorded in the
  ghost field `deleted`, which counts destructor runs on that record, so that a
  second destruction or an access after destruction stays observable.
* A USB interface is identified by a natural number, which is also the minor
  number under which `usb_register_dev` publishes it.
* The kernel primitives used by the driver (`kref_*`, `usb_set_intfdata`,
  `usb_get_intfdata`, `usb_register_dev`, `usb_deregister_dev`,
  `usb_find_interface`, `kzalloc`) are modelled by their kernel contract.  The
  outcomes of `kzalloc` and `usb_register_dev` are inputs of `lkm_usb_probe`.
* The kref counter is an unbounded integer; logging (`printk`) is dropped.
-/

namespace LkmUsb

/-! ## Error numbers (linux/errno.h) -/

def ENOMEM : Int := 12
def EBUSY : Int := 16
def ENODEV : Int := 19
def ENOSYS : Int := 38

/-! ## Data model -/

/-- Device record `struct lkm_usb_s`.  `iface` is the owning interface, `kref`
the reference counter.  The ghost field `deleted` counts the runs of
`lkm_usb_ref_delete` on this record (`usb_put_dev` and `kfree`). -/
structure lkm_usb_s where
  iface : Nat
  isopen : Nat
  ispresent : Nat
  kref : Int
  deleted : Nat
deriving DecidableEq

/-- Kernel `struct file`, reduced to the `private_data` pointer (`none` is NULL). -/
structure file where
  private_data : Option Nat
deriving DecidableEq

/-- Driver-visible kernel state.
`heap` holds the device records by address, `intfdata` maps an interface to its
driver data pointer (no entry is NULL), `minors` lists the interfaces that
currently have a registered device node. -/
structure State where
  heap : List lkm_usb_s
  intfdata : List (Nat × Nat)
  minors : List Nat
deriving DecidableEq

/-- State before any interface has been probed. -/
def State.init : State := ⟨[], [], []⟩

/-- Memory returned by `kzalloc`: every field zero. -/
def zeroed (iface : Nat) : lkm_usb_s := ⟨iface, 0, 0, 0, 0⟩

/-- Dereference of a record pointer. -/
def State.deref (s : State) (p : Nat) : lkm_usb_s := s.heap.getD p (zeroed 0)

/-- Store through a record pointer. -/
def State.store (s : State) (p : Nat) (d : lkm_usb_s) : State :=
  { s with heap := s.heap.set p d }

/-! ## Kernel primitives -/

/-- Contract of `usb_get_intfdata(iface)`. -/
def usb_get_intfdata (s : State) (iface : Nat) : Option Nat :=
  s.intfdata.lookup iface

/-- Contract of `usb_set_intfdata(iface, data)`. -/
def usb_set_intfdata (s : State) (iface : Nat) (data : Option Nat) : State :=
  let rest := s.intfdata.filter (fun e => e.1 != iface)
  match data with
  | none => { s with intfdata := rest }
  | some p => { s with intfdata := (iface, p) :: rest }

/-- Contract of `usb_register_dev(iface, &lkm_usb_class)`: `retval` is the
code the USB core answers; on `0` the interface is reachable by its minor. -/
def usb_register_dev (s : State) (iface : Nat) (retval : Int) : Int × State :=
  if retval = 0 then (0, { s with minors := iface :: s.minors }) else (retval, s)

/-- Contract of `usb_deregister_dev(iface, &lkm_usb_class)`. -/
def usb_deregister_dev (s : State) (iface : Nat) : State :=
  { s with minors := s.minors.filter (fun m => m != iface) }

/-- Contract of `usb_find_interface(&lkm_usb_driver, minor)`. -/
def usb_find_interface (s : State) (minor : Nat) : Option Nat :=
  if s.minors.contains minor then some minor else none

/-- Contract of `kref_init`. -/
def kref_init (s : State) (p : Nat) : State :=
  s.store p { s.deref p with kref := 1 }

/-- Contract of `kref_get`. -/
def kref_get (s : State) (p : Nat) : State :=
  s.store p { s.deref p with kref := (s.deref p).kref + 1 }

/-- Contract of `kref_put(kref, release)`: decrement, and run `release` when the
counter reaches zero. -/
def kref_put (s : State) (p : Nat) (release : State → Nat → State) : State :=
  let s1 := s.store p { s.deref p with kref := (s.deref p).kref - 1 }
  if (s1.deref p).kref = 0 then release s1 p else s1

/-! ## The driver (src/lkm_usb.c) -/

/-- Source `lkm_usb_ref_delete` (lines 138-144): releases the usb device and
frees the record; the run is counted in `deleted`. -/
def lkm_usb_ref_delete (s : State) (p : Nat) : State :=
  s.store p { s.deref p with deleted := (s.deref p).deleted + 1 }

/-- Source `lkm_usb_open` (lines 101-132).  Returns the code, the caller's file
and the new state. -/
def lkm_usb_open (s : State) (minor : Nat) (f : file) : Int × file × State :=
  match usb_find_interface s minor with
  | none => (-ENODEV, f, s)
  | some iface =>
    match usb_get_intfdata s iface with
    | none => (-ENODEV, f, s)
    | some dev =>
      if (s.deref dev).isopen ≠ 0 ∨ (s.deref dev).ispresent = 0 then
        (-EBUSY, f, s)
      else
        let s1 := s.store dev { s.deref dev with isopen := 1 }
        let s2 := kref_get s1 dev
        (0, { f with private_data := some dev }, s2)

/-- Source `lkm_usb_release` (lines 152-165). -/
def lkm_usb_release (s : State) (f : file) : Int × State :=
  match f.private_data with
  | none => (-ENODEV, s)
  | some dev =>
    let s1 := s.store dev { s.deref dev with isopen := 0 }
    (0, kref_put s1 dev lkm_usb_ref_delete)

/-- Source `lkm_usb_read` (lines 175-183): every argument is ignored. -/
def lkm_usb_read (s : State) (_f : file) (_length : Nat) : Int × State :=
  (-ENOSYS, s)

/-- Source `lkm_usb_write` (lines 193-202): every argument is ignored. -/
def lkm_usb_write (s : State) (_f : file) (_length : Nat) : Int × State :=
  (-ENOSYS, s)

/-- Source `lkm_usb_probe` (lines 239-356).  `alloc_ok` tells whether `kzalloc`
succeeds and `retval` is the answer of `usb_register_dev`. -/
def lkm_usb_probe (s : State) (iface : Nat) (alloc_ok : Bool) (retval : Int) :
    Int × State :=
  if alloc_ok = false then (-ENOMEM, s)
  else
    let dev := s.heap.length
    let s1 : State := { s with heap := s.heap ++ [zeroed 0] }
    let s2 := kref_init s1 dev
    let s3 := s2.store dev { s2.deref dev with iface := iface }
    let s4 := usb_set_intfdata s3 iface (some dev)
    let r := usb_register_dev s4 iface retval
    if r.1 ≠ 0 then
      let s5 := usb_set_intfdata r.2 iface none
      (r.1, kref_put s5 dev lkm_usb_ref_delete)
    else
      (0, r.2.store dev { r.2.deref dev with ispresent := 1 })

/-- Source `lkm_usb_disconnect` (lines 363-379). -/
def lkm_usb_disconnect (s : State) (iface : Nat) : State :=
  let dev := usb_get_intfdata s iface
  let s1 := usb_set_intfdata s iface none
  match dev with
  | none => s1
  | some d =>
    let s2 := usb_deregister_dev s1 iface
    let s3 := s2.store d { s2.deref d with isopen := 0 }
    let s4 := s3.store d { s3.deref d with ispresent := 0 }
    kref_put s4 d lkm_usb_ref_delete

/-! ## Event sequences on one device id -/

/-- Calls into the driver concerning one device id.  `attach` carries the
outcomes of `kzalloc` and `usb_register_dev`; `openDev` is an open call on a
new `struct file` (its `private_data` is NULL), whose handle number is the
number of earlier open calls; `closeDev h` is a release call on the file of
handle `h`, and reaches the driver only if some open call produced `h`. -/
inductive Event where
  | attach (alloc_ok : Bool) (retval : Int)
  | openDev
  | closeDev (h : Nat)
  | detach
deriving DecidableEq

/-- Driver state together with the files handed to the driver.  `files` holds
the `struct file` of every open call, `live` the handles granted by a
successful open and not closed since. -/
structure Sys where
  st : State
  files : List file
  live : List Nat
deriving DecidableEq

/-- System before any call. -/
def Sys.init : Sys := ⟨State.init, [], []⟩

/-- Effect of one event on device id `id`. -/
def Sys.step (id : Nat) (y : Sys) : Event → Sys
  | .attach a r => { y with st := (lkm_usb_probe y.st id a r).2 }
  | .openDev =>
    let o := lkm_usb_open y.st id ⟨none⟩
    { st := o.2.2
      files := y.files ++ [o.2.1]
      live := if o.1 = 0 then y.files.length :: y.live else y.live }
  | .closeDev h =>
    match y.files[h]? with
    | none => y
    | some f => { y with st := (lkm_usb_release y.st f).2, live := y.live.erase h }
  | .detach => { y with st := lkm_usb_disconnect y.st id }

/-- Effect of a sequence of events. -/
def Sys.run (id : Nat) (y : Sys) (es : List Event) : Sys :=
  es.foldl (Sys.step id) y

/-- Total number of destructor runs recorded in the heap. -/
def State.destructor_runs (s : State) : Nat := (s.heap.map (fun d => d.deleted)).sum

/-! ## A fixed scenario on device id 7 -/

/-- After attach of id 7. -/
def scn_attached : State := (lkm_usb_probe State.init 7 true 0).2

/-- First open of id 7 on a new file: result code, handle `h1`, state. -/
def scn_open1 : Int × file × State := lkm_usb_open scn_attached 7 ⟨none⟩

/-- After detach of id 7 while `h1` is held. -/
def scn_detached : State := lkm_usb_disconnect scn_open1.2.2 7

/-- Second open of id 7, after the detach. -/
def scn_open2 : Int × file × State := lkm_usb_open scn_detached 7 ⟨none⟩

/-- Close of `h1`. -/
def scn_closed : Int × State := lkm_usb_release scn_open2.2.2 scn_open1.2.1

/-- State in which `lkm_usb_probe` for id 7 stands between the return of
`usb_register_dev` (line 341) and the store `dev->ispresent = 1` (line 354):
the record is reachable through the minor and the driver data pointer, and
its `ispresent` is still 0. -/
def scn_not_yet_present : State := ⟨[⟨7, 0, 0, 1, 0⟩], [(7, 0)], [7]⟩

/-! ## The scenario on any device id, from any state -/

/-- State after attach of `id` in state `s` (allocation and registration
succeed). -/
def sc_attached (s : State) (id : Nat) : State := (lkm_usb_probe s id true 0).2

/-- First open of `id` on file `f1`: result code, handle `h1`, state. -/
def sc_open1 (s : State) (id : Nat) (f1 : file) : Int × file × State :=
  lkm_usb_open (sc_attached s id) id f1

/-- State after detach of `id` while `h1` is held. -/
def sc_detached (s : State) (id : Nat) (f1 : file) : State :=
  lkm_usb_disconnect (sc_open1 s id f1).2.2 id

/-- Second open of `id`, on file `f2`, after the detach. -/
def sc_open2 (s : State) (id : Nat) (f1 f2 : file) : Int × file × State :=
  lkm_usb_open (sc_detached s id f1) id f2

/-- Close of `h1` after the second open. -/
def sc_closed (s : State) (id : Nat) (f1 f2 : file) : Int × State :=
  lkm_usb_release (sc_open2 s id f1 f2).2.2 (sc_open1 s id f1).2.1

/-- State in which id 3 is attached and open, and id 7 is unregistered. -/
def scn_other_device : State := (lkm_usb_open (lkm_usb_probe State.init 3 true 0).2 3 ⟨none⟩).2.2

/-! ## Admissible event sequences and the lifecycle invariant -/

/-- Number of handles in `live` whose file points at record `p`. -/
def holders (files : List file) (live : List Nat) (p : Nat) : Nat :=
  live.countP (fun h => decide (files[h]? = some ⟨some p⟩))

/-- Events the callers of the driver may issue in system `y`: an attach only
while id has no driver data, a close only on a handle that is currently open.
Open and detach are always admissible. -/
def Sys.admissible (id : Nat) (y : Sys) : Event → Bool
  | .attach _ _ => (usb_get_intfdata y.st id).isNone
  | .closeDev h => y.live.contains h
  | _ => true

/-- Every event of the sequence is admissible in the system it is issued in. -/
def Sys.admissible_run (id : Nat) (y : Sys) : List Event → Bool
  | [] => true
  | e :: es => Sys.admissible id y e && Sys.admissible_run id (Sys.step id y e) es

/-- Lifecycle invariant: live handles and the driver data pointer of id lead to
allocated records; the reference count of every record is the number of its
owners (one for the driver data pointer, one for each live handle); and a
record has been destroyed, once, exactly when its count is zero. -/
structure Sys.Inv (id : Nat) (y : Sys) : Prop where
  live_ok : ∀ h ∈ y.live, ∃ p, y.files[h]? = some ⟨some p⟩ ∧ p < y.st.heap.length
  reg_ok : ∀ p, usb_get_intfdata y.st id = some p → p < y.st.heap.length
  count : ∀ p r, y.st.heap[p]? = some r →
    r.kref = (if usb_get_intfdata y.st id = some p then 1 else 0) + (holders y.files y.live p : Int) ∧
    r.deleted = (if r.kref = 0 then 1 else 0)

/-! ## Attach up to the registration call -/

/-- State of `lkm_usb_probe` (lines 307-338) when `kzalloc` has succeeded, just
before the call of `usb_register_dev` at line 341: the record is allocated at
the first unused address, its counter is set by `kref_init`, `dev->iface` is
stored and the driver data pointer of the interface leads to the record. -/
def probe_before_register (s : State) (iface : Nat) : State :=
  let dev := s.heap.length
  let s1 : State := { s with heap := s.heap ++ [zeroed 0] }
  let s2 := kref_init s1 dev
  let s3 := s2.store dev { s2.deref dev with iface := iface }
  usb_set_intfdata s3 iface (some dev)

/-! ## Basic facts on the heap -/

theorem deref_of_get {s : State} {p : Nat} {r : lkm_usb_s} (h : s.heap[p]? = some r) :
    s.deref p = r := by
  simp [State.deref, List.getD, h]

theorem deref_store_same (s : State) (p : Nat) (d : lkm_usb_s) (h : p < s.heap.length) :
    (s.store p d).deref p = d := by
  simp [State.deref, State.store, List.getD, h]

theorem deref_out_of_range (s : State) (p : Nat) (h : s.heap.length ≤ p) :
    s.deref p = zeroed 0 := by
  simp [State.deref, List.getD, List.getElem?_eq_none h]

theorem lt_of_ispresent_ne_zero (s : State) (p : Nat) (h : (s.deref p).ispresent ≠ 0) :
    p < s.heap.length := by
  by_contra hc
  exact h (by rw [deref_out_of_range s p (Nat.le_of_not_lt hc)]; rfl)

theorem lookup_none_filter (l : List (Nat × Nat)) (i : Nat) (h : l.lookup i = none) :
    l.filter (fun e => e.1 != i) = l := by
  induction l with
  | nil => rfl
  | cons a t ih =>
    obtain ⟨k, v⟩ := a
    by_cases hk : i = k
    · subst hk; simp [List.lookup] at h
    · have hb : (i == k) = false := by simpa using hk
      simp only [List.lookup, hb] at h
      have hk2 : ¬ k = i := fun e => hk e.symm
      simp [List.filter_cons, hk2, ih h]

theorem lookup_filter_self (l : List (Nat × Nat)) (i : Nat) :
    (l.filter (fun e => e.1 != i)).lookup i = none := by
  induction l with
  | nil => rfl
  | cons a t ih =>
    obtain ⟨k, v⟩ := a
    by_cases hk : k = i
    · simp [List.filter_cons, hk, ih]
    · have hb : (i == k) = false := by simpa using fun e => hk e.symm
      simp [List.filter_cons, hk, List.lookup, hb, ih]

/-! ## The fixed scenario -/

/-- The run attach(7), open(7) = h1, detach(7), open(7), close(h1) evaluated from
the state before any attach: the first open succeeds and h1 holds record 0;
after the detach id 7 is not found while record 0 is alive with count 1; the
second open returns -ENODEV; close(h1) returns 0, the count reaches 0 and the
destructor has run once in total. -/
theorem scenario_attach_open_detach_open_close :
    scn_open1.1 = 0 ∧ scn_open1.2.1.private_data = some 0 ∧
    usb_find_interface scn_detached 7 = none ∧ usb_get_intfdata scn_detached 7 = none ∧
    (scn_detached.deref 0).kref = 1 ∧ (scn_detached.deref 0).deleted = 0 ∧
    scn_detached.destructor_runs = 0 ∧
    scn_open2.1 = -ENODEV ∧ scn_open2.2.2 = scn_detached ∧
    scn_open2.2.1.private_data = none ∧
    scn_closed.1 = 0 ∧ (scn_closed.2.deref 0).kref = 0 ∧
    (scn_closed.2.deref 0).deleted = 1 ∧ scn_closed.2.destructor_runs = 1 := by
  decide

/-! ## Close -/

/-- C3 (as stated, refuted): after attach(7), open(7) = h1 and close(h1), a second
close(h1) returns 0, not an error, and lowers the reference count of the record
from 1 to 0, running the destructor while the record is still registered. -/
theorem second_release_not_rejected :
    (lkm_usb_release scn_open1.2.2 scn_open1.2.1).1 = 0 ∧
    ((lkm_usb_release scn_open1.2.2 scn_open1.2.1).2.deref 0).kref = 1 ∧
    (lkm_usb_release (lkm_usb_release scn_open1.2.2 scn_open1.2.1).2 scn_open1.2.1).1 = 0 ∧
    ((lkm_usb_release (lkm_usb_release scn_open1.2.2 scn_open1.2.1).2
        scn_open1.2.1).2.deref 0).kref = 0 ∧
    ((lkm_usb_release (lkm_usb_release scn_open1.2.2 scn_open1.2.1).2
        scn_open1.2.1).2.deref 0).deleted = 1 ∧
    usb_get_intfdata (lkm_usb_release (lkm_usb_release scn_open1.2.2 scn_open1.2.1).2
        scn_open1.2.1).2 7 = some 0 := by
  decide

theorem release_held (s : State) (f : file) (p : Nat) (r : lkm_usb_s)
    (hf : f.private_data = some p) (hr : s.heap[p]? = some r) :
    (lkm_usb_release s f).1 = 0 ∧
    (lkm_usb_release s f).2.heap = s.heap.set p
      { r with isopen := 0, kref := r.kref - 1,
               deleted := if r.kref - 1 = 0 then r.deleted + 1 else r.deleted } ∧
    (lkm_usb_release s f).2.intfdata = s.intfdata ∧
    (lkm_usb_release s f).2.minors = s.minors := by
  have hp : p < s.heap.length := by
    by_contra hc
    rw [List.getElem?_eq_none (Nat.le_of_not_lt hc)] at hr
    exact Option.noConfusion hr
  have hd : s.deref p = r := deref_of_get hr
  simp only [lkm_usb_release, hf, kref_put, lkm_usb_ref_delete]
  by_cases hz : r.kref - 1 = 0
  · simp [State.store, State.deref, List.getD, hp, hr, hz]
  · simp [State.store, State.deref, List.getD, hp, hr, hz]

theorem open_ok_inv (s : State) (minor : Nat) (f : file)
    (h : (lkm_usb_open s minor f).1 = 0) :
    ∃ dev, usb_find_interface s minor = some minor ∧ usb_get_intfdata s minor = some dev ∧
      dev < s.heap.length ∧ (s.deref dev).isopen = 0 ∧ (s.deref dev).ispresent ≠ 0 ∧
      lkm_usb_open s minor f =
        (0, ⟨some dev⟩,
          kref_get (s.store dev { s.deref dev with isopen := 1 }) dev) := by
  unfold lkm_usb_open at h ⊢
  cases hfi : usb_find_interface s minor with
  | none => simp [hfi, ENODEV] at h
  | some iface =>
    have hi : iface = minor := by
      unfold usb_find_interface at hfi
      split at hfi
      · exact (Option.some.inj hfi).symm
      · exact Option.noConfusion hfi
    subst hi
    simp only [hfi] at h ⊢
    cases hg : usb_get_intfdata s iface with
    | none => simp [hg, ENODEV] at h
    | some dev =>
      simp only [hg] at h ⊢
      by_cases hc : (s.deref dev).isopen ≠ 0 ∨ (s.deref dev).ispresent = 0
      · simp [hc, EBUSY] at h
      · have hc1 : (s.deref dev).isopen = 0 := by
          by_contra h1; exact hc (Or.inl h1)
        have hc2 : (s.deref dev).ispresent ≠ 0 := fun h2 => hc (Or.inr h2)
        exact ⟨dev, trivial, rfl, lt_of_ispresent_ne_zero s dev hc2, hc1, hc2, by simp [hc]⟩

/-! ## Open -/

/-- C4 (as stated, refuted): the record of id 7 is found through the minor table
and the driver data pointer with ispresent = 0 and isopen = 0, and open returns
-EBUSY, which differs from -ENODEV. -/
theorem open_absent_record_is_busy :
    usb_find_interface scn_not_yet_present 7 = some 7 ∧
    usb_get_intfdata scn_not_yet_present 7 = some 0 ∧
    (scn_not_yet_present.deref 0).ispresent = 0 ∧
    (scn_not_yet_present.deref 0).isopen = 0 ∧
    (lkm_usb_open scn_not_yet_present 7 ⟨none⟩).1 = -EBUSY ∧
    (lkm_usb_open scn_not_yet_present 7 ⟨none⟩).1 ≠ -ENODEV := by
  decide

/-- C4 (amended): for every device record that open finds through the registry
with ispresent = 0, whatever its open flag, open returns -EBUSY, leaves the
caller's file as it was (no handle is granted) and changes nothing. -/
theorem open_not_present (s : State) (minor iface dev : Nat) (f : file)
    (hfi : usb_find_interface s minor = some iface)
    (hg : usb_get_intfdata s iface = some dev)
    (hp : (s.deref dev).ispresent = 0) :
    lkm_usb_open s minor f = (-EBUSY, f, s) := by
  simp [lkm_usb_open, hfi, hg, hp]

/-- Instance in the state where id 7 is registered and not
yet marked present. -/
theorem open_not_present_witness :
    usb_find_interface scn_not_yet_present 7 = some 7 ∧
    usb_get_intfdata scn_not_yet_present 7 = some 0 ∧
    (scn_not_yet_present.deref 0).ispresent = 0 ∧
    lkm_usb_open scn_not_yet_present 7 ⟨none⟩ = (-EBUSY, ⟨none⟩, scn_not_yet_present) :=
  ⟨by decide, by decide, by decide,
    open_not_present scn_not_yet_present 7 7 0 ⟨none⟩ (by decide) (by decide) (by decide)⟩

/-- C5: for a registered, present device whose open flag is 1, open returns
-EBUSY and changes neither the state (reference count, flags, registry) nor the
caller's file; in particular, after a successful open, a further open of the
same id on any file returns -EBUSY and changes nothing. -/
theorem open_busy (s : State) (minor : Nat) (f : file) :
    (∀ iface dev, usb_find_interface s minor = some iface →
      usb_get_intfdata s iface = some dev →
      (s.deref dev).ispresent = 1 → (s.deref dev).isopen = 1 →
      lkm_usb_open s minor f = (-EBUSY, f, s)) ∧
    (∀ f2, (lkm_usb_open s minor f).1 = 0 →
      lkm_usb_open (lkm_usb_open s minor f).2.2 minor f2 =
        (-EBUSY, f2, (lkm_usb_open s minor f).2.2)) := by
  constructor
  · intro iface dev hfi hg _ ho
    simp [lkm_usb_open, hfi, hg, ho]
  · intro f2 h
    obtain ⟨dev, hfi, hg, hlt, -, -, ho⟩ := open_ok_inv s minor f h
    rw [ho]
    have hfi2 : usb_find_interface
        (kref_get (s.store dev { s.deref dev with isopen := 1 }) dev) minor = some minor := hfi
    have hg2 : usb_get_intfdata
        (kref_get (s.store dev { s.deref dev with isopen := 1 }) dev) minor = some dev := hg
    have hopen : ((kref_get (s.store dev { s.deref dev with isopen := 1 }) dev).deref
        dev).isopen = 1 := by
      simp [kref_get, State.store, State.deref, List.getD, hlt]
    simp [lkm_usb_open, hfi2, hg2, hopen]

/-- Instance: id 7 after attach and one successful open. -/
theorem open_busy_witness :
    (usb_find_interface scn_open1.2.2 7 = some 7 ∧
      usb_get_intfdata scn_open1.2.2 7 = some 0 ∧
      (scn_open1.2.2.deref 0).ispresent = 1 ∧ (scn_open1.2.2.deref 0).isopen = 1 ∧
      lkm_usb_open scn_open1.2.2 7 ⟨none⟩ = (-EBUSY, ⟨none⟩, scn_open1.2.2)) ∧
    ((lkm_usb_open scn_attached 7 ⟨none⟩).1 = 0 ∧
      lkm_usb_open (lkm_usb_open scn_attached 7 ⟨none⟩).2.2 7 ⟨none⟩ =
        (-EBUSY, ⟨none⟩, (lkm_usb_open scn_attached 7 ⟨none⟩).2.2)) :=
  ⟨⟨by decide, by decide, by decide, by decide,
      (open_busy scn_open1.2.2 7 ⟨none⟩).1 7 0 (by decide) (by decide) (by decide) (by decide)⟩,
    ⟨by decide, (open_busy scn_attached 7 ⟨none⟩).2 ⟨none⟩ (by decide)⟩⟩

theorem get_intfdata_disconnect (s : State) (id : Nat) :
    usb_get_intfdata (lkm_usb_disconnect s id) id = none := by
  have key : (lkm_usb_disconnect s id).intfdata =
      s.intfdata.filter (fun e => e.1 != id) := by
    unfold lkm_usb_disconnect
    cases hg : usb_get_intfdata s id with
    | none => simp [usb_set_intfdata]
    | some d =>
      simp only [kref_put, lkm_usb_ref_delete]
      split <;> simp [usb_set_intfdata, usb_deregister_dev, State.store]
  unfold usb_get_intfdata
  rw [key]
  exact lookup_filter_self s.intfdata id

/-- C6: whenever no device record is registered under id (the minor is not
found or the driver data pointer is NULL), open returns -ENODEV and leaves the
state and the caller's file unchanged; this is the case in the state before any
attach, and in every state reached by a detach of id, whatever handles are
still held. -/
theorem open_unregistered (s : State) (id : Nat) (f : file) :
    (usb_find_interface s id = none ∨ usb_get_intfdata s id = none →
      lkm_usb_open s id f = (-ENODEV, f, s)) ∧
    lkm_usb_open State.init id f = (-ENODEV, f, State.init) ∧
    lkm_usb_open (lkm_usb_disconnect s id) id f = (-ENODEV, f, lkm_usb_disconnect s id) := by
  have gen : ∀ t : State, usb_find_interface t id = none ∨ usb_get_intfdata t id = none →
      lkm_usb_open t id f = (-ENODEV, f, t) := by
    intro t h
    unfold lkm_usb_open
    cases hfi : usb_find_interface t id with
    | none => rfl
    | some iface =>
      have hi : iface = id := by
        unfold usb_find_interface at hfi
        split at hfi
        · exact (Option.some.inj hfi).symm
        · exact Option.noConfusion hfi
      subst hi
      rcases h with h | h
      · rw [hfi] at h; exact Option.noConfusion h
      · simp [h]
  exact ⟨gen s, gen State.init (Or.inl rfl),
    gen (lkm_usb_disconnect s id) (Or.inr (get_intfdata_disconnect s id))⟩

/-- Instance: id 7 after attach, open and detach, with the
handle of that open still held. -/
theorem open_unregistered_witness :
    (usb_find_interface scn_detached 7 = none ∨ usb_get_intfdata scn_detached 7 = none) ∧
    lkm_usb_open scn_detached 7 ⟨none⟩ = (-ENODEV, ⟨none⟩, scn_detached) :=
  ⟨Or.inl (by decide), (open_unregistered scn_detached 7 ⟨none⟩).1 (Or.inl (by decide))⟩

/-! ## Detach -/

/-- C7: detach is a total state transformer; for an id whose driver data
pointer is NULL it changes nothing, and for every state, running detach(id)
twice in a row yields the same state as running it once. -/
theorem disconnect_idempotent (s : State) (id : Nat) :
    (usb_get_intfdata s id = none → lkm_usb_disconnect s id = s) ∧
    lkm_usb_disconnect (lkm_usb_disconnect s id) id = lkm_usb_disconnect s id := by
  have gen : ∀ t : State, usb_get_intfdata t id = none → lkm_usb_disconnect t id = t := by
    intro t h
    unfold lkm_usb_disconnect
    simp only [h, usb_set_intfdata]
    unfold usb_get_intfdata at h
    rw [lookup_none_filter t.intfdata id h]
  exact ⟨gen s, gen _ (get_intfdata_disconnect s id)⟩

/-- Instance: detach of the never attached id 7. -/
theorem disconnect_idempotent_witness :
    usb_get_intfdata State.init 7 = none ∧ lkm_usb_disconnect State.init 7 = State.init :=
  ⟨by decide, (disconnect_idempotent State.init 7).1 (by decide)⟩

/-! ## Attach and the successful open -/

theorem open_found (s : State) (minor iface dev : Nat) (f : file) (r : lkm_usb_s)
    (hfi : usb_find_interface s minor = some iface)
    (hg : usb_get_intfdata s iface = some dev)
    (hr : s.heap[dev]? = some r) (hp : r.ispresent = 1) (ho : r.isopen = 0) :
    lkm_usb_open s minor f =
      (0, ⟨some dev⟩,
        { s with heap := s.heap.set dev { r with isopen := 1, kref := r.kref + 1 } }) := by
  have hlt : dev < s.heap.length := by
    by_contra hc
    rw [List.getElem?_eq_none (Nat.le_of_not_lt hc)] at hr
    exact Option.noConfusion hr
  have hge : s.heap[dev] = r := by
    rw [List.getElem?_eq_getElem hlt] at hr
    exact Option.some.inj hr
  simp [lkm_usb_open, hfi, hg, hge, hp, ho, kref_get, State.store, State.deref, List.getD, hlt]

/-- C8: whenever attach returns 0 for an id that was not registered, the heap
gains one new record, at the first unused address, with reference count 1,
ispresent 1 and isopen 0 (and not destroyed), every older record is unchanged,
the driver data pointer and the minor of id lead to the new record, and a
subsequent open(id) succeeds with that record as its handle. -/
theorem probe_success (s : State) (id : Nat) (alloc_ok : Bool) (retval : Int)
    (hun : usb_get_intfdata s id = none)
    (h : (lkm_usb_probe s id alloc_ok retval).1 = 0) :
    (lkm_usb_probe s id alloc_ok retval).2.heap = s.heap ++ [⟨id, 0, 1, 1, 0⟩] ∧
    usb_get_intfdata (lkm_usb_probe s id alloc_ok retval).2 id = some s.heap.length ∧
    usb_find_interface (lkm_usb_probe s id alloc_ok retval).2 id = some id ∧
    ∀ f, (lkm_usb_open (lkm_usb_probe s id alloc_ok retval).2 id f).1 = 0 ∧
      (lkm_usb_open (lkm_usb_probe s id alloc_ok retval).2 id f).2.1.private_data =
        some s.heap.length := by
  have _ := hun
  cases alloc_ok with
  | false => simp [lkm_usb_probe, ENOMEM] at h
  | true =>
    by_cases hr : retval = 0
    · subst hr
      have hheap : (lkm_usb_probe s id true 0).2.heap = s.heap ++ [⟨id, 0, 1, 1, 0⟩] := by
        simp [lkm_usb_probe, usb_register_dev, usb_set_intfdata, kref_init, State.store,
          State.deref, List.getD, zeroed]
      have hget : usb_get_intfdata (lkm_usb_probe s id true 0).2 id = some s.heap.length := by
        simp [lkm_usb_probe, usb_register_dev, usb_set_intfdata, kref_init, State.store,
          usb_get_intfdata, List.lookup]
      have hfind : usb_find_interface (lkm_usb_probe s id true 0).2 id = some id := by
        simp [lkm_usb_probe, usb_register_dev, usb_set_intfdata, kref_init, State.store,
          usb_find_interface]
      refine ⟨hheap, hget, hfind, fun f => ?_⟩
      have hrec : (lkm_usb_probe s id true 0).2.heap[s.heap.length]? =
          some ⟨id, 0, 1, 1, 0⟩ := by
        rw [hheap]; simp
      rw [open_found _ id id s.heap.length f _ hfind hget hrec rfl rfl]
      exact ⟨rfl, rfl⟩
    · simp [lkm_usb_probe, usb_register_dev, hr] at h

/-- Instance: attach of id 7 in the unregistered state. -/
theorem probe_success_witness :
    usb_get_intfdata State.init 7 = none ∧ (lkm_usb_probe State.init 7 true 0).1 = 0 ∧
    (lkm_usb_probe State.init 7 true 0).2.heap = [⟨7, 0, 1, 1, 0⟩] ∧
    usb_get_intfdata (lkm_usb_probe State.init 7 true 0).2 7 = some 0 :=
  ⟨by decide, by decide,
    (probe_success State.init 7 true 0 (by decide) (by decide)).1,
    (probe_success State.init 7 true 0 (by decide) (by decide)).2.1⟩

/-- C9: for every registered device record with ispresent = 1 and isopen = 0,
open returns 0, stores the record pointer as the file's private_data, and the
new state differs from the old one only in that record, whose isopen is now 1
and whose reference count is larger by exactly 1; ispresent, the driver data
pointers and the minor table are unchanged. -/
theorem open_success (s : State) (minor iface dev : Nat) (f : file) (r : lkm_usb_s)
    (hfi : usb_find_interface s minor = some iface)
    (hg : usb_get_intfdata s iface = some dev)
    (hr : s.heap[dev]? = some r) (hp : r.ispresent = 1) (ho : r.isopen = 0) :
    (lkm_usb_open s minor f).1 = 0 ∧
    (lkm_usb_open s minor f).2.1.private_data = some dev ∧
    (lkm_usb_open s minor f).2.2.heap =
      s.heap.set dev ⟨r.iface, 1, r.ispresent, r.kref + 1, r.deleted⟩ ∧
    ((lkm_usb_open s minor f).2.2.deref dev).isopen = 1 ∧
    ((lkm_usb_open s minor f).2.2.deref dev).kref = r.kref + 1 ∧
    ((lkm_usb_open s minor f).2.2.deref dev).ispresent = 1 ∧
    (lkm_usb_open s minor f).2.2.intfdata = s.intfdata ∧
    (lkm_usb_open s minor f).2.2.minors = s.minors := by
  have hlt : dev < s.heap.length := by
    by_contra hc
    rw [List.getElem?_eq_none (Nat.le_of_not_lt hc)] at hr
    exact Option.noConfusion hr
  rw [open_found s minor iface dev f r hfi hg hr hp ho]
  simp [State.deref, List.getD, hlt, hp]

/-- Instance: first open of id 7 after its attach. -/
theorem open_success_witness :
    usb_find_interface scn_attached 7 = some 7 ∧ usb_get_intfdata scn_attached 7 = some 0 ∧
    scn_attached.heap[0]? = some ⟨7, 0, 1, 1, 0⟩ ∧
    (lkm_usb_open scn_attached 7 ⟨none⟩).1 = 0 ∧
    (lkm_usb_open scn_attached 7 ⟨none⟩).2.1.private_data = some 0 :=
  ⟨by decide, by decide, by decide,
    (open_success scn_attached 7 7 0 ⟨none⟩ ⟨7, 0, 1, 1, 0⟩ (by decide) (by decide)
      (by decide) rfl rfl).1,
    (open_success scn_attached 7 7 0 ⟨none⟩ ⟨7, 0, 1, 1, 0⟩ (by decide) (by decide)
      (by decide) rfl rfl).2.1⟩

/-! ## Read and write -/

/-- C10 (as stated, refuted): after attach(7), open(7) = h1 and detach(7) the
record held by h1 has ispresent = 0, and read and write on h1 return -ENOSYS,
which differs from -ENODEV. -/
theorem read_write_after_detach_not_enodev :
    scn_open1.2.1.private_data = some 0 ∧ (scn_detached.deref 0).ispresent = 0 ∧
    (lkm_usb_read scn_detached scn_open1.2.1 1).1 = -ENOSYS ∧
    (lkm_usb_write scn_detached scn_open1.2.1 1).1 = -ENOSYS ∧
    (lkm_usb_read scn_detached scn_open1.2.1 1).1 ≠ -ENODEV ∧
    (lkm_usb_write scn_detached scn_open1.2.1 1).1 ≠ -ENODEV := by
  decide

/-- C10 (amended): every read and write call, on any handle, in any state (so
also after detach has set ispresent = 0) and for any length, returns -ENOSYS
and leaves the state unchanged; the result does not depend on the handle or on
the state, hence not on the present flag. -/
theorem read_write_not_supported (s : State) (f : file) (length : Nat) :
    lkm_usb_read s f length = (-ENOSYS, s) ∧ lkm_usb_write s f length = (-ENOSYS, s) ∧
    (∀ (t : State) (g : file) (n : Nat),
      (lkm_usb_read t g n).1 = (lkm_usb_read s f length).1 ∧
      (lkm_usb_write t g n).1 = (lkm_usb_write s f length).1) :=
  ⟨rfl, rfl, fun _ _ _ => ⟨rfl, rfl⟩⟩


/-! ## Effect of the driver functions on the state -/

theorem lt_of_get {l : List lkm_usb_s} {p : Nat} {r : lkm_usb_s} (h : l[p]? = some r) :
    p < l.length := by
  by_contra hc
  rw [List.getElem?_eq_none (Nat.le_of_not_lt hc)] at h
  exact Option.noConfusion h

theorem probe_alloc_fail (s : State) (id : Nat) (retval : Int) :
    lkm_usb_probe s id false retval = (-ENOMEM, s) := by
  simp [lkm_usb_probe]

theorem probe_registered (s : State) (id : Nat) :
    lkm_usb_probe s id true 0 =
      (0, ⟨s.heap ++ [⟨id, 0, 1, 1, 0⟩],
        (id, s.heap.length) :: s.intfdata.filter (fun e => e.1 != id), id :: s.minors⟩) := by
  simp [lkm_usb_probe, usb_register_dev, usb_set_intfdata, kref_init, State.store,
    State.deref, List.getD, zeroed]

theorem probe_register_fail (s : State) (id : Nat) (retval : Int) (hr : retval ≠ 0) :
    lkm_usb_probe s id true retval =
      (retval, ⟨s.heap ++ [⟨id, 0, 0, 0, 1⟩],
        s.intfdata.filter (fun e => e.1 != id), s.minors⟩) := by
  simp [lkm_usb_probe, usb_register_dev, usb_set_intfdata, kref_init, kref_put,
    lkm_usb_ref_delete, State.store, State.deref, List.getD, zeroed, hr, List.filter_cons,
    List.filter_filter]

theorem release_state (s : State) (f : file) (p : Nat) (r : lkm_usb_s)
    (hf : f.private_data = some p) (hr : s.heap[p]? = some r) :
    lkm_usb_release s f =
      (0, ⟨s.heap.set p ⟨r.iface, 0, r.ispresent, r.kref - 1,
        if r.kref - 1 = 0 then r.deleted + 1 else r.deleted⟩, s.intfdata, s.minors⟩) := by
  have hp : p < s.heap.length := lt_of_get hr
  simp only [lkm_usb_release, hf, kref_put, lkm_usb_ref_delete]
  by_cases hz : r.kref - 1 = 0
  · simp [State.store, State.deref, List.getD, hp, hr, hz]
  · simp [State.store, State.deref, List.getD, hp, hr, hz]

theorem disconnect_unbound (s : State) (id : Nat) (h : usb_get_intfdata s id = none) :
    lkm_usb_disconnect s id = s := by
  unfold lkm_usb_disconnect
  simp only [h, usb_set_intfdata]
  unfold usb_get_intfdata at h
  rw [lookup_none_filter s.intfdata id h]

theorem disconnect_bound (s : State) (id d : Nat) (r : lkm_usb_s)
    (hg : usb_get_intfdata s id = some d) (hr : s.heap[d]? = some r) :
    lkm_usb_disconnect s id =
      ⟨s.heap.set d ⟨r.iface, 0, 0, r.kref - 1,
        if r.kref - 1 = 0 then r.deleted + 1 else r.deleted⟩,
        s.intfdata.filter (fun e => e.1 != id), s.minors.filter (fun m => m != id)⟩ := by
  have hp : d < s.heap.length := lt_of_get hr
  simp only [lkm_usb_disconnect, hg, kref_put, lkm_usb_ref_delete]
  by_cases hz : r.kref - 1 = 0
  · simp [State.store, State.deref, List.getD, hp, hr, hz, usb_set_intfdata,
      usb_deregister_dev]
  · simp [State.store, State.deref, List.getD, hp, hr, hz, usb_set_intfdata,
      usb_deregister_dev]

theorem open_cases (s : State) (minor : Nat) (f : file) :
    ((lkm_usb_open s minor f).1 ≠ 0 ∧ (lkm_usb_open s minor f).2 = (f, s)) ∨
    ∃ dev r, usb_get_intfdata s minor = some dev ∧ s.heap[dev]? = some r ∧
      lkm_usb_open s minor f =
        (0, ⟨some dev⟩, ⟨s.heap.set dev ⟨r.iface, 1, r.ispresent, r.kref + 1, r.deleted⟩,
          s.intfdata, s.minors⟩) := by
  by_cases h : (lkm_usb_open s minor f).1 = 0
  · right
    obtain ⟨dev, -, hg, hlt, -, -, ho⟩ := open_ok_inv s minor f h
    refine ⟨dev, s.heap[dev], hg, List.getElem?_eq_getElem hlt, ?_⟩
    rw [ho]
    simp [kref_get, State.store, State.deref, List.getD, hlt]
  · left
    refine ⟨h, ?_⟩
    unfold lkm_usb_open at h ⊢
    split
    · rfl
    · split
      · rfl
      · split
        · rfl
        · rename_i h1 _ _ h2 h3
          simp [h1, h2, h3] at h


/-! ## The lifecycle invariant is preserved by admissible events -/

theorem holders_congr (fs gs : List file) (live : List Nat) (p : Nat)
    (hf : ∀ h ∈ live, gs[h]? = fs[h]?) : holders gs live p = holders fs live p := by
  unfold holders
  apply List.countP_congr
  intro h hh
  simp [hf h hh]

theorem holders_zero_of_ge (id : Nat) (y : Sys) (hy : Sys.Inv id y) (p : Nat)
    (hp : y.st.heap.length ≤ p) : holders y.files y.live p = 0 := by
  unfold holders
  rw [List.countP_eq_zero]
  intro h hh
  obtain ⟨q, hq, hlt⟩ := hy.live_ok h hh
  have hne : q ≠ p := by omega
  simp [hq, hne]

theorem files_append_live (id : Nat) (y : Sys) (hy : Sys.Inv id y) (f : file) :
    ∀ h ∈ y.live, (y.files ++ [f])[h]? = y.files[h]? := by
  intro h hh
  obtain ⟨q, hq, -⟩ := hy.live_ok h hh
  have hlt : h < y.files.length := by
    by_contra hc
    rw [List.getElem?_eq_none (Nat.le_of_not_lt hc)] at hq
    exact Option.noConfusion hq
  exact List.getElem?_append_left hlt

theorem inv_init (id : Nat) : Sys.Inv id Sys.init where
  live_ok := by intro h hh; simp [Sys.init] at hh
  reg_ok := by intro p hp; simp [Sys.init, State.init, usb_get_intfdata] at hp
  count := by intro p r hr; simp [Sys.init, State.init] at hr

theorem inv_attach (id : Nat) (y : Sys) (hy : Sys.Inv id y) (a : Bool) (rv : Int)
    (hadm : usb_get_intfdata y.st id = none) : Sys.Inv id (Sys.step id y (.attach a rv)) := by
  have hfil : y.st.intfdata.filter (fun e => e.1 != id) = y.st.intfdata :=
    lookup_none_filter _ _ hadm
  have hfl : (Sys.step id y (.attach a rv)).files = y.files := rfl
  have hlv : (Sys.step id y (.attach a rv)).live = y.live := rfl
  cases a with
  | false =>
    have hs : Sys.step id y (.attach false rv) = y := by
      simp [Sys.step, probe_alloc_fail]
    rw [hs]; exact hy
  | true =>
    by_cases hrv : rv = 0
    · subst hrv
      have hst : (Sys.step id y (.attach true 0)).st =
          ⟨y.st.heap ++ [⟨id, 0, 1, 1, 0⟩], (id, y.st.heap.length) :: y.st.intfdata,
            id :: y.st.minors⟩ := by
        simp [Sys.step, probe_registered, hfil]
      have hget : usb_get_intfdata (Sys.step id y (.attach true 0)).st id =
          some y.st.heap.length := by
        rw [hst]; simp [usb_get_intfdata, List.lookup]
      refine ⟨?_, ?_, ?_⟩
      · intro h hh
        obtain ⟨q, hq, hlt⟩ := hy.live_ok h hh
        refine ⟨q, hq, ?_⟩
        rw [hst]; simp; omega
      · intro p hp
        rw [hget] at hp
        rw [hst]; simp
        have := Option.some.inj hp; omega
      · intro p r hr
        rw [hget, hfl, hlv]
        rw [hst] at hr
        simp only at hr
        by_cases hlt : p < y.st.heap.length
        · rw [List.getElem?_append_left hlt] at hr
          obtain ⟨h1, h2⟩ := hy.count p r hr
          rw [hadm] at h1
          have hne : ¬ (some y.st.heap.length = some p) := by
            intro e; have := Option.some.inj e; omega
          have h1b : r.kref = (holders y.files y.live p : Int) := by simpa using h1
          refine ⟨?_, h2⟩
          rw [h1b]; simp [hne]
        · have hpe : p = y.st.heap.length := by
            have := lt_of_get hr
            simp at this; omega
          subst hpe
          rw [List.getElem?_concat_length] at hr
          have hr2 := Option.some.inj hr
          subst hr2
          simp [holders_zero_of_ge id y hy _ (Nat.le_refl _)]
    · have hst : (Sys.step id y (.attach true rv)).st =
          ⟨y.st.heap ++ [⟨id, 0, 0, 0, 1⟩], y.st.intfdata, y.st.minors⟩ := by
        simp [Sys.step, probe_register_fail _ _ _ hrv, hfil]
      have hget : usb_get_intfdata (Sys.step id y (.attach true rv)).st id = none := by
        rw [hst]; exact hadm
      refine ⟨?_, ?_, ?_⟩
      · intro h hh
        obtain ⟨q, hq, hlt⟩ := hy.live_ok h hh
        refine ⟨q, hq, ?_⟩
        rw [hst]; simp; omega
      · intro p hp
        rw [hget] at hp
        exact Option.noConfusion hp
      · intro p r hr
        rw [hget, hfl, hlv]
        rw [hst] at hr
        simp only at hr
        by_cases hlt : p < y.st.heap.length
        · rw [List.getElem?_append_left hlt] at hr
          obtain ⟨h1, h2⟩ := hy.count p r hr
          rw [hadm] at h1
          have h1b : r.kref = (holders y.files y.live p : Int) := by simpa using h1
          refine ⟨?_, h2⟩
          rw [h1b]; simp
        · have hpe : p = y.st.heap.length := by
            have := lt_of_get hr
            simp at this; omega
          subst hpe
          rw [List.getElem?_concat_length] at hr
          have hr2 := Option.some.inj hr
          subst hr2
          simp [holders_zero_of_ge id y hy _ (Nat.le_refl _)]


theorem holders_open (id : Nat) (y : Sys) (hy : Sys.Inv id y) (dev p : Nat) :
    holders (y.files ++ [⟨some dev⟩]) (y.files.length :: y.live) p =
      holders y.files y.live p + (if dev = p then 1 else 0) := by
  have hc : holders (y.files ++ [⟨some dev⟩]) y.live p = holders y.files y.live p :=
    holders_congr _ _ _ p (files_append_live id y hy ⟨some dev⟩)
  unfold holders at hc ⊢
  simp only [List.countP_cons, List.getElem?_concat_length] at hc ⊢
  rw [hc]
  by_cases hd : dev = p
  · simp [hd]
  · simp [hd]

theorem holders_close (y : Sys) (h p q : Nat) (hh : h ∈ y.live)
    (hf : y.files[h]? = some ⟨some p⟩) :
    holders y.files (y.live.erase h) q + (if p = q then 1 else 0) =
      holders y.files y.live q := by
  unfold holders
  rw [(List.perm_cons_erase hh).countP_eq, List.countP_cons, hf]
  by_cases hd : p = q
  · simp [hd]
  · simp [hd]

theorem inv_open (id : Nat) (y : Sys) (hy : Sys.Inv id y) :
    Sys.Inv id (Sys.step id y .openDev) := by
  rcases open_cases y.st id ⟨none⟩ with ⟨hne, heq⟩ | ⟨dev, r, hg, hr, ho⟩
  · have hs : Sys.step id y .openDev = ⟨y.st, y.files ++ [⟨none⟩], y.live⟩ := by
      simp [Sys.step, hne, heq]
    rw [hs]
    refine ⟨?_, hy.reg_ok, ?_⟩
    · intro h hh
      obtain ⟨q, hq, hlt⟩ := hy.live_ok h hh
      exact ⟨q, by rw [← hq]; exact files_append_live id y hy ⟨none⟩ h hh, hlt⟩
    · intro p r hr
      simp only
      rw [holders_congr _ _ _ p (files_append_live id y hy ⟨none⟩)]
      exact hy.count p r hr
  · have hdl : dev < y.st.heap.length := lt_of_get hr
    have hs : Sys.step id y .openDev =
        ⟨⟨y.st.heap.set dev ⟨r.iface, 1, r.ispresent, r.kref + 1, r.deleted⟩,
          y.st.intfdata, y.st.minors⟩, y.files ++ [⟨some dev⟩], y.files.length :: y.live⟩ := by
      simp [Sys.step, ho]
    rw [hs]
    obtain ⟨hk, hdel⟩ := hy.count dev r hr
    rw [hg] at hk
    simp only [if_true] at hk
    refine ⟨?_, ?_, ?_⟩
    · intro h hh
      rcases List.mem_cons.mp hh with he | hm
      · subst he
        exact ⟨dev, List.getElem?_concat_length _ _, by simpa using hdl⟩
      · obtain ⟨q, hq, hlt⟩ := hy.live_ok h hm
        exact ⟨q, by rw [← hq]; exact files_append_live id y hy _ h hm, by simpa using hlt⟩
    · intro p hp
      have := hy.reg_ok p hp
      simpa using this
    · intro p r2 hr2
      simp only at hr2 ⊢
      rw [holders_open id y hy]
      have hgi : usb_get_intfdata
          (⟨y.st.heap.set dev ⟨r.iface, 1, r.ispresent, r.kref + 1, r.deleted⟩,
            y.st.intfdata, y.st.minors⟩ : State) id = usb_get_intfdata y.st id := rfl
      rw [hgi]
      by_cases hpd : dev = p
      · subst hpd
        rw [List.getElem?_set_self hdl] at hr2
        have e := Option.some.inj hr2
        rw [← e]
        simp only [hg, if_true]
        have hz : ¬ (r.kref = 0) := by omega
        have hz2 : ¬ (r.kref + 1 = 0) := by omega
        simp only [hz, if_false] at hdel
        refine ⟨?_, ?_⟩
        · push_cast; omega
        · simp [hz2, hdel]
      · rw [List.getElem?_set_ne hpd] at hr2
        obtain ⟨a, b⟩ := hy.count p r2 hr2
        refine ⟨?_, b⟩
        rw [a]; simp [hpd]

theorem inv_close (id : Nat) (y : Sys) (hy : Sys.Inv id y) (h : Nat) (hh : h ∈ y.live) :
    Sys.Inv id (Sys.step id y (.closeDev h)) := by
  obtain ⟨p, hf, hlt⟩ := hy.live_ok h hh
  obtain ⟨r, hr⟩ : ∃ r, y.st.heap[p]? = some r := ⟨_, List.getElem?_eq_getElem hlt⟩
  have hs : Sys.step id y (.closeDev h) =
      ⟨⟨y.st.heap.set p ⟨r.iface, 0, r.ispresent, r.kref - 1,
          if r.kref - 1 = 0 then r.deleted + 1 else r.deleted⟩,
        y.st.intfdata, y.st.minors⟩, y.files, y.live.erase h⟩ := by
    simp [Sys.step, hf, release_state y.st ⟨some p⟩ p r rfl hr]
  rw [hs]
  obtain ⟨hk, hdel⟩ := hy.count p r hr
  refine ⟨?_, ?_, ?_⟩
  · intro h2 hh2
    obtain ⟨q, hq, hql⟩ := hy.live_ok h2 (List.mem_of_mem_erase hh2)
    exact ⟨q, hq, by simpa using hql⟩
  · intro q hq
    have := hy.reg_ok q hq
    simpa using this
  · intro q r2 hr2
    have hgi : usb_get_intfdata
        (⟨y.st.heap.set p ⟨r.iface, 0, r.ispresent, r.kref - 1,
            if r.kref - 1 = 0 then r.deleted + 1 else r.deleted⟩,
          y.st.intfdata, y.st.minors⟩ : State) id = usb_get_intfdata y.st id := rfl
    simp only at hr2 ⊢
    rw [hgi]
    have hc := holders_close y h p q hh hf
    by_cases hpq : p = q
    · subst hpq
      rw [List.getElem?_set_self hlt] at hr2
      have e := Option.some.inj hr2
      rw [← e]
      simp only [if_true] at hc
      have hreg : (0 : Int) ≤ (if usb_get_intfdata y.st id = some p then 1 else 0) := by
        split <;> omega
      generalize (if usb_get_intfdata y.st id = some p then (1 : Int) else 0) = reg at hk hreg ⊢
      have hz : ¬ (r.kref = 0) := by omega
      simp only [hz, if_false] at hdel
      refine ⟨?_, ?_⟩
      · simp only; omega
      · simp only
        split <;> simp [hdel]
    · rw [List.getElem?_set_ne hpq] at hr2
      obtain ⟨a, b⟩ := hy.count q r2 hr2
      simp only [hpq, if_false, Nat.add_zero] at hc
      refine ⟨?_, b⟩
      rw [a, hc]

theorem inv_detach (id : Nat) (y : Sys) (hy : Sys.Inv id y) :
    Sys.Inv id (Sys.step id y .detach) := by
  cases hg : usb_get_intfdata y.st id with
  | none =>
    have hs : Sys.step id y .detach = y := by
      simp [Sys.step, disconnect_unbound y.st id hg]
    rw [hs]; exact hy
  | some d =>
    have hlt : d < y.st.heap.length := hy.reg_ok d hg
    obtain ⟨r, hr⟩ : ∃ r, y.st.heap[d]? = some r := ⟨_, List.getElem?_eq_getElem hlt⟩
    have hs : Sys.step id y .detach =
        ⟨⟨y.st.heap.set d ⟨r.iface, 0, 0, r.kref - 1,
            if r.kref - 1 = 0 then r.deleted + 1 else r.deleted⟩,
          y.st.intfdata.filter (fun e => e.1 != id),
          y.st.minors.filter (fun m => m != id)⟩, y.files, y.live⟩ := by
      simp [Sys.step, disconnect_bound y.st id d r hg hr]
    rw [hs]
    obtain ⟨hk, hdel⟩ := hy.count d r hr
    rw [hg] at hk
    simp only [if_true] at hk
    have hgi : usb_get_intfdata
        (⟨y.st.heap.set d ⟨r.iface, 0, 0, r.kref - 1,
            if r.kref - 1 = 0 then r.deleted + 1 else r.deleted⟩,
          y.st.intfdata.filter (fun e => e.1 != id),
          y.st.minors.filter (fun m => m != id)⟩ : State) id = none :=
      lookup_filter_self y.st.intfdata id
    refine ⟨?_, ?_, ?_⟩
    · intro h hh
      obtain ⟨q, hq, hql⟩ := hy.live_ok h hh
      exact ⟨q, hq, by simpa using hql⟩
    · intro q hq
      rw [hgi] at hq
      exact Option.noConfusion hq
    · intro q r2 hr2
      simp only at hr2 ⊢
      rw [hgi]
      by_cases hdq : d = q
      · subst hdq
        rw [List.getElem?_set_self hlt] at hr2
        have e := Option.some.inj hr2
        rw [← e]
        have hz : ¬ (r.kref = 0) := by omega
        simp only [hz, if_false] at hdel
        refine ⟨?_, ?_⟩
        · simp only
          rw [hk]; simp
        · simp only
          split <;> simp [hdel]
      · rw [List.getElem?_set_ne hdq] at hr2
        obtain ⟨a, b⟩ := hy.count q r2 hr2
        have hne : ¬ (usb_get_intfdata y.st id = some q) := by
          rw [hg]; intro e; exact hdq (Option.some.inj e)
        refine ⟨?_, b⟩
        rw [a]; simp [hne]

theorem inv_run (id : Nat) (es : List Event) :
    ∀ y : Sys, Sys.Inv id y → Sys.admissible_run id y es = true →
      Sys.Inv id (Sys.run id y es) := by
  induction es with
  | nil => intro y hy _; exact hy
  | cons e es ih =>
    intro y hy hadm
    simp only [Sys.admissible_run, Bool.and_eq_true] at hadm
    obtain ⟨h1, h2⟩ := hadm
    have hstep : Sys.Inv id (Sys.step id y e) := by
      cases e with
      | attach a rv =>
        refine inv_attach id y hy a rv ?_
        simpa [Sys.admissible, Option.isNone_iff_eq_none] using h1
      | openDev => exact inv_open id y hy
      | closeDev h =>
        refine inv_close id y hy h ?_
        simpa [Sys.admissible] using h1
      | detach => exact inv_detach id y hy
    exact ih (Sys.step id y e) hstep h2


/-! ## Lifecycle over event sequences -/

/-- C1 (as stated, refuted): on device id 7, from the unregistered state,
(1) attach, open, close(h0), close(h0), open, close(h1) runs the destructor
twice on record 0; (2) attach, open, close(h0), close(h0), detach leaves record 0
with reference count -1; (3) attach, attach (registration refused), detach
leaves record 0 unregistered and held by no handle with count 1 and the
destructor never run. -/
theorem lifecycle_fails_without_call_discipline :
    ((Sys.run 7 Sys.init [.attach true 0, .openDev, .closeDev 0, .closeDev 0, .openDev,
      .closeDev 1]).st.deref 0).deleted = 2 ∧
    ((Sys.run 7 Sys.init [.attach true 0, .openDev, .closeDev 0, .closeDev 0,
      .detach]).st.deref 0).kref = -1 ∧
    ((Sys.run 7 Sys.init [.attach true 0, .attach true (-98), .detach]).st.deref 0).kref = 1 ∧
    ((Sys.run 7 Sys.init [.attach true 0, .attach true (-98), .detach]).st.deref 0).deleted
      = 0 ∧
    usb_get_intfdata (Sys.run 7 Sys.init [.attach true 0, .attach true (-98), .detach]).st 7
      = none ∧
    (Sys.run 7 Sys.init [.attach true 0, .attach true (-98), .detach]).live = [] := by
  decide

/-- C1 (amended): for every finite sequence of attach, open, close and detach
events on one device id, starting from the unregistered state, in which every
attach is issued while the id has no driver data and every close is applied to
a handle that is currently open, each device record has a reference count that
is not negative, its destructor has run at most once, and it has run exactly
once precisely when the record is neither the registered record of the id nor
held by a live handle. -/
theorem lifecycle_refcount_destructor (id : Nat) (es : List Event)
    (hadm : Sys.admissible_run id Sys.init es = true) (p : Nat) (r : lkm_usb_s)
    (hr : (Sys.run id Sys.init es).st.heap[p]? = some r) :
    0 ≤ r.kref ∧ r.deleted ≤ 1 ∧
    (r.deleted = 1 ↔
      usb_get_intfdata (Sys.run id Sys.init es).st id ≠ some p ∧
      ∀ h ∈ (Sys.run id Sys.init es).live,
        (Sys.run id Sys.init es).files[h]? ≠ some ⟨some p⟩) := by
  have hinv := inv_run id es Sys.init (inv_init id) hadm
  obtain ⟨hk, hdel⟩ := hinv.count p r hr
  have hcount : holders (Sys.run id Sys.init es).files (Sys.run id Sys.init es).live p = 0 ↔
      ∀ h ∈ (Sys.run id Sys.init es).live,
        (Sys.run id Sys.init es).files[h]? ≠ some ⟨some p⟩ := by
    unfold holders
    rw [List.countP_eq_zero]
    constructor
    · intro hall h hh; simpa using hall h hh
    · intro hall h hh; simpa using hall h hh
  rw [← hcount]
  generalize holders (Sys.run id Sys.init es).files (Sys.run id Sys.init es).live p = n at hk
  by_cases hreg : usb_get_intfdata (Sys.run id Sys.init es).st id = some p
  · simp only [hreg, if_true] at hk
    have hz : ¬ (r.kref = 0) := by omega
    simp only [hz, if_false] at hdel
    refine ⟨by omega, by omega, ?_⟩
    constructor
    · intro h1; omega
    · intro h2; exact absurd hreg h2.1
  · simp only [hreg, if_false] at hk
    refine ⟨by omega, by rw [hdel]; split <;> omega, ?_⟩
    constructor
    · intro h1
      refine ⟨fun e => hreg e, ?_⟩
      by_contra hn
      have hz : ¬ (r.kref = 0) := by omega
      simp only [hz, if_false] at hdel
      omega
    · intro h2
      have hz : r.kref = 0 := by omega
      simp [hdel, hz]

/-- Instance: attach, open, detach, open,
close(h0) on id 7, at record 0. -/
theorem lifecycle_refcount_destructor_witness :
    Sys.admissible_run 7 Sys.init
      [.attach true 0, .openDev, .detach, .openDev, .closeDev 0] = true ∧
    (Sys.run 7 Sys.init [.attach true 0, .openDev, .detach, .openDev,
      .closeDev 0]).st.heap[0]? = some ⟨7, 0, 0, 0, 1⟩ ∧
    (0 : Int) ≤ (⟨7, 0, 0, 0, 1⟩ : lkm_usb_s).kref ∧
    (⟨7, 0, 0, 0, 1⟩ : lkm_usb_s).deleted ≤ 1 :=
  ⟨by decide, by decide,
    (lifecycle_refcount_destructor 7 [.attach true 0, .openDev, .detach, .openDev, .closeDev 0]
      (by decide) 0 ⟨7, 0, 0, 0, 1⟩ (by decide)).1,
    (lifecycle_refcount_destructor 7 [.attach true 0, .openDev, .detach, .openDev, .closeDev 0]
      (by decide) 0 ⟨7, 0, 0, 0, 1⟩ (by decide)).2.1⟩


/-! ## Attach with a refused registration -/

theorem probe_fail_path (s : State) (id : Nat) (retval : Int) (hr : retval ≠ 0) :
    (lkm_usb_probe s id true retval).2 =
      kref_put (usb_set_intfdata (probe_before_register s id) id none) s.heap.length
        lkm_usb_ref_delete := by
  simp [lkm_usb_probe, probe_before_register, usb_register_dev, hr]

theorem probe_before_register_record (s : State) (id : Nat) :
    (probe_before_register s id).heap = s.heap ++ [⟨id, 0, 0, 1, 0⟩] := by
  simp [probe_before_register, usb_set_intfdata, kref_init, State.store, State.deref,
    List.getD, zeroed]

/-- C11: when attach allocates the device record and usb_register_dev answers a
non-zero code r, probe returns exactly r; up to the registration call the new
record has reference count 1, is not destroyed and has ispresent 0; the failure
path resets the driver data pointer and drops that one reference, so that in
the final state the new record has count 0, ispresent 0 and one destructor run,
every older record is unchanged and the destructor has run exactly once more
in total; the minor table is unchanged, the driver data pointer of id is NULL,
and a later open(id) returns -ENODEV and changes nothing. -/
theorem probe_registration_refused (s : State) (id : Nat) (retval : Int)
    (hr : retval ≠ 0) :
    (lkm_usb_probe s id true retval).1 = retval ∧
    (probe_before_register s id).heap = s.heap ++ [⟨id, 0, 0, 1, 0⟩] ∧
    (lkm_usb_probe s id true retval).2 =
      kref_put (usb_set_intfdata (probe_before_register s id) id none) s.heap.length
        lkm_usb_ref_delete ∧
    (lkm_usb_probe s id true retval).2.heap = s.heap ++ [⟨id, 0, 0, 0, 1⟩] ∧
    (lkm_usb_probe s id true retval).2.destructor_runs = s.destructor_runs + 1 ∧
    (lkm_usb_probe s id true retval).2.minors = s.minors ∧
    usb_get_intfdata (lkm_usb_probe s id true retval).2 id = none ∧
    ∀ f, lkm_usb_open (lkm_usb_probe s id true retval).2 id f =
      (-ENODEV, f, (lkm_usb_probe s id true retval).2) := by
  have hget : usb_get_intfdata (lkm_usb_probe s id true retval).2 id = none := by
    rw [probe_register_fail s id retval hr]
    exact lookup_filter_self s.intfdata id
  refine ⟨?_, probe_before_register_record s id, probe_fail_path s id retval hr, ?_, ?_, ?_,
    hget, fun f => ?_⟩
  · rw [probe_register_fail s id retval hr]
  · rw [probe_register_fail s id retval hr]
  · rw [probe_register_fail s id retval hr]
    simp [State.destructor_runs]
  · rw [probe_register_fail s id retval hr]
  · unfold lkm_usb_open
    cases hfi : usb_find_interface (lkm_usb_probe s id true retval).2 id with
    | none => rfl
    | some iface =>
      have hi : iface = id := by
        unfold usb_find_interface at hfi
        split at hfi
        · exact (Option.some.inj hfi).symm
        · exact Option.noConfusion hfi
      subst hi
      simp [hget]

/-- Instance: attach of id 7 in the unregistered state with the registration
refused with code -98. -/
theorem probe_registration_refused_witness :
    (-98 : Int) ≠ 0 ∧ (lkm_usb_probe State.init 7 true (-98)).1 = -98 ∧
    (lkm_usb_probe State.init 7 true (-98)).2.heap = [⟨7, 0, 0, 0, 1⟩] ∧
    usb_get_intfdata (lkm_usb_probe State.init 7 true (-98)).2 7 = none :=
  ⟨by decide, (probe_registration_refused State.init 7 (-98) (by decide)).1,
    (probe_registration_refused State.init 7 (-98) (by decide)).2.2.2.1,
    (probe_registration_refused State.init 7 (-98) (by decide)).2.2.2.2.2.2.1⟩

/-! ## The scenario on any device id -/

theorem set_concat_length (l : List lkm_usb_s) (a b : lkm_usb_s) :
    (l ++ [a]).set l.length b = l ++ [b] := by
  induction l with
  | nil => rfl
  | cons x t ih => simp [List.set, ih]

theorem sum_deleted_concat (l : List lkm_usb_s) (a : lkm_usb_s) :
    ((l ++ [a]).map (fun d => d.deleted)).sum = (l.map (fun d => d.deleted)).sum + a.deleted := by
  simp

theorem filter_minor_absent (l : List Nat) (id : Nat) (h : l.contains id = false) :
    l.filter (fun m => m != id) = l := by
  rw [List.filter_eq_self]
  intro a ha
  have hne : a ≠ id := by
    intro e; subst e
    have : l.contains a = true := by simpa using ha
    rw [h] at this; exact Bool.noConfusion this
  simpa using hne

theorem open_no_intfdata (s : State) (id : Nat) (f : file)
    (h : usb_get_intfdata s id = none) : lkm_usb_open s id f = (-ENODEV, f, s) := by
  unfold lkm_usb_open
  cases hfi : usb_find_interface s id with
  | none => rfl
  | some iface =>
    have hi : iface = id := by
      unfold usb_find_interface at hfi
      split at hfi
      · exact (Option.some.inj hfi).symm
      · exact Option.noConfusion hfi
    subst hi
    simp [h]

theorem sc_attached_eq (s : State) (id : Nat) (hun : usb_get_intfdata s id = none) :
    lkm_usb_probe s id true 0 =
      (0, ⟨s.heap ++ [⟨id, 0, 1, 1, 0⟩], (id, s.heap.length) :: s.intfdata,
        id :: s.minors⟩) := by
  rw [probe_registered, lookup_none_filter s.intfdata id hun]

theorem sc_open1_eq (s : State) (id : Nat) (f1 : file)
    (hun : usb_get_intfdata s id = none) :
    sc_open1 s id f1 =
      (0, ⟨some s.heap.length⟩,
        ⟨s.heap ++ [⟨id, 1, 1, 2, 0⟩], (id, s.heap.length) :: s.intfdata, id :: s.minors⟩) := by
  unfold sc_open1 sc_attached
  rw [sc_attached_eq s id hun]
  rw [open_found _ id id s.heap.length f1 ⟨id, 0, 1, 1, 0⟩
    (by simp [usb_find_interface]) (by simp [usb_get_intfdata, List.lookup])
    (by simp) rfl rfl]
  simp [set_concat_length]

theorem sc_detached_eq (s : State) (id : Nat) (f1 : file)
    (hun : usb_get_intfdata s id = none) (hmin : usb_find_interface s id = none) :
    sc_detached s id f1 = ⟨s.heap ++ [⟨id, 0, 0, 1, 0⟩], s.intfdata, s.minors⟩ := by
  have hc : s.minors.contains id = false := by
    unfold usb_find_interface at hmin
    by_contra hne
    simp only [Bool.not_eq_false] at hne
    rw [if_pos hne] at hmin
    exact Option.noConfusion hmin
  unfold sc_detached
  rw [sc_open1_eq s id f1 hun]
  rw [disconnect_bound _ id s.heap.length ⟨id, 1, 1, 2, 0⟩
    (by simp [usb_get_intfdata, List.lookup]) (by simp)]
  have h1 := lookup_none_filter s.intfdata id hun
  have h2 := filter_minor_absent s.minors id hc
  simp [set_concat_length, List.filter_cons, h1, h2]

/-- C2: for every device id, every state s in which id is unregistered (no minor,
no driver data) and all files f1, f2, in the run attach(id), open(id) = h1,
detach(id), open(id), close(h1): the first open returns 0 and h1 holds the new
record, which lies at the first unused address; after the detach neither the
minor table nor the driver data pointer finds id, while the record is alive
with reference count 1 and no destructor has run since s; the second open
returns -ENODEV, grants nothing and changes nothing; close(h1) returns 0 and
brings the count of the record to 0 with one destructor run on it, so that the
destructor has run exactly once in total, at close(h1) and not at detach.
Records and registrations of other ids are unchanged throughout. -/
theorem attach_open_detach_open_close (s : State) (id : Nat) (f1 f2 : file)
    (hun : usb_get_intfdata s id = none) (hmin : usb_find_interface s id = none) :
    (sc_open1 s id f1).1 = 0 ∧
    (sc_open1 s id f1).2.1.private_data = some s.heap.length ∧
    ((sc_open1 s id f1).2.2.deref s.heap.length).kref = 2 ∧
    usb_find_interface (sc_detached s id f1) id = none ∧
    usb_get_intfdata (sc_detached s id f1) id = none ∧
    sc_detached s id f1 = ⟨s.heap ++ [⟨id, 0, 0, 1, 0⟩], s.intfdata, s.minors⟩ ∧
    ((sc_detached s id f1).deref s.heap.length).kref = 1 ∧
    ((sc_detached s id f1).deref s.heap.length).deleted = 0 ∧
    (sc_detached s id f1).destructor_runs = s.destructor_runs ∧
    sc_open2 s id f1 f2 = (-ENODEV, f2, sc_detached s id f1) ∧
    sc_closed s id f1 f2 = (0, ⟨s.heap ++ [⟨id, 0, 0, 0, 1⟩], s.intfdata, s.minors⟩) ∧
    ((sc_closed s id f1 f2).2.deref s.heap.length).kref = 0 ∧
    ((sc_closed s id f1 f2).2.deref s.heap.length).deleted = 1 ∧
    (sc_closed s id f1 f2).2.destructor_runs = s.destructor_runs + 1 := by
  have ho1 := sc_open1_eq s id f1 hun
  have hd := sc_detached_eq s id f1 hun hmin
  have hgd : usb_get_intfdata (sc_detached s id f1) id = none := by rw [hd]; exact hun
  have hfd : usb_find_interface (sc_detached s id f1) id = none := by rw [hd]; exact hmin
  have ho2 : sc_open2 s id f1 f2 = (-ENODEV, f2, sc_detached s id f1) :=
    open_no_intfdata (sc_detached s id f1) id f2 hgd
  have hc : sc_closed s id f1 f2 =
      (0, ⟨s.heap ++ [⟨id, 0, 0, 0, 1⟩], s.intfdata, s.minors⟩) := by
    unfold sc_closed
    rw [ho2, ho1, hd]
    rw [release_state _ ⟨some s.heap.length⟩ s.heap.length ⟨id, 0, 0, 1, 0⟩ rfl (by simp)]
    simp [set_concat_length]
  refine ⟨by rw [ho1], by rw [ho1], ?_, hfd, hgd, hd, ?_, ?_, ?_, ho2, hc, ?_, ?_, ?_⟩
  · rw [ho1]; simp [State.deref, List.getD]
  · rw [hd]; simp [State.deref, List.getD]
  · rw [hd]; simp [State.deref, List.getD]
  · rw [hd]; simp [State.destructor_runs]
  · rw [hc]; simp [State.deref, List.getD]
  · rw [hc]; simp [State.deref, List.getD]
  · rw [hc]; simp [State.destructor_runs]

/-- Instance: the run on id 7 from the state in which id 3 is attached and open;
the new record lies at address 1. -/
theorem attach_open_detach_open_close_witness :
    usb_get_intfdata scn_other_device 7 = none ∧
    usb_find_interface scn_other_device 7 = none ∧
    (sc_open1 scn_other_device 7 ⟨none⟩).2.1.private_data = some 1 ∧
    sc_open2 scn_other_device 7 ⟨none⟩ ⟨none⟩ =
      (-ENODEV, ⟨none⟩, sc_detached scn_other_device 7 ⟨none⟩) ∧
    sc_closed scn_other_device 7 ⟨none⟩ ⟨none⟩ =
      (0, ⟨scn_other_device.heap ++ [⟨7, 0, 0, 0, 1⟩], scn_other_device.intfdata,
        scn_other_device.minors⟩) :=
  ⟨by decide, by decide,
    (attach_open_detach_open_close scn_other_device 7 ⟨none⟩ ⟨none⟩
      (by decide) (by decide)).2.1,
    (attach_open_detach_open_close scn_other_device 7 ⟨none⟩ ⟨none⟩
      (by decide) (by decide)).2.2.2.2.2.2.2.2.2.1,
    (attach_open_detach_open_close scn_other_device 7 ⟨none⟩ ⟨none⟩
      (by decide) (by decide)).2.2.2.2.2.2.2.2.2.2.1⟩

/-! ## Repeated release -/

/-- C3 (amended): lkm_usb_release keeps no record of closed handles and cannot
alter the handle, so a handle granted by a successful open still holds its
record p after a release, and a repeated release is not rejected.  With r the
record before the open: the open sets isopen and adds one reference; the first
release returns 0, clears isopen and brings the count back to r.kref; the
second release on the same handle returns 0 again and lowers the count to
r.kref - 1; each release runs the destructor when the count it leaves is 0;
ispresent, the driver data pointers and the minor table are unchanged.
lkm_usb_release returns 0 exactly when private_data is not NULL and -ENODEV
exactly when it is NULL, and in the latter case changes nothing. -/
theorem release_twice_on_granted_handle (s : State) (minor : Nat) (f : file)
    (h : (lkm_usb_open s minor f).1 = 0) :
    (∃ p r, usb_get_intfdata s minor = some p ∧ s.heap[p]? = some r ∧
      lkm_usb_open s minor f =
        (0, ⟨some p⟩,
          ⟨s.heap.set p ⟨r.iface, 1, r.ispresent, r.kref + 1, r.deleted⟩,
            s.intfdata, s.minors⟩) ∧
      lkm_usb_release (lkm_usb_open s minor f).2.2 (lkm_usb_open s minor f).2.1 =
        (0, ⟨s.heap.set p ⟨r.iface, 0, r.ispresent, r.kref,
              r.deleted + (if r.kref = 0 then 1 else 0)⟩,
            s.intfdata, s.minors⟩) ∧
      lkm_usb_release
          (lkm_usb_release (lkm_usb_open s minor f).2.2 (lkm_usb_open s minor f).2.1).2
          (lkm_usb_open s minor f).2.1 =
        (0, ⟨s.heap.set p ⟨r.iface, 0, r.ispresent, r.kref - 1,
              r.deleted + (if r.kref = 0 then 1 else 0) + (if r.kref = 1 then 1 else 0)⟩,
            s.intfdata, s.minors⟩)) ∧
    (∀ (t : State) (g : file), (lkm_usb_release t g).1 = 0 ↔ g.private_data ≠ none) ∧
    (∀ (t : State) (g : file), (lkm_usb_release t g).1 = -ENODEV ↔ g.private_data = none) ∧
    (∀ (t : State) (g : file), g.private_data = none → lkm_usb_release t g = (-ENODEV, t)) := by
  refine ⟨?_, ?_, ?_, ?_⟩
  · rcases open_cases s minor f with ⟨hne, -⟩ | ⟨p, r, hg, hr, ho⟩
    · exact absurd h hne
    · have hlt : p < s.heap.length := lt_of_get hr
      refine ⟨p, r, hg, hr, ho, ?_⟩
      rw [ho]
      have e1 : lkm_usb_release
          ⟨s.heap.set p ⟨r.iface, 1, r.ispresent, r.kref + 1, r.deleted⟩, s.intfdata,
            s.minors⟩ ⟨some p⟩ =
          (0, ⟨s.heap.set p ⟨r.iface, 0, r.ispresent, r.kref,
                r.deleted + (if r.kref = 0 then 1 else 0)⟩, s.intfdata, s.minors⟩) := by
        rw [release_state _ ⟨some p⟩ p ⟨r.iface, 1, r.ispresent, r.kref + 1, r.deleted⟩ rfl
          (by simp [hlt])]
        by_cases hz : r.kref = 0
        · simp [hz]
        · simp [hz]
      refine ⟨e1, ?_⟩
      simp only [e1]
      rw [release_state _ ⟨some p⟩ p ⟨r.iface, 0, r.ispresent, r.kref,
          r.deleted + (if r.kref = 0 then 1 else 0)⟩ rfl (by simp [hlt])]
      have hk : (r.kref - 1 = 0) ↔ r.kref = 1 := by omega
      by_cases h1 : r.kref = 1
      · have h0 : ¬ r.kref = 0 := by omega
        simp [h1]
      · have hk2 : ¬ (r.kref - 1 = 0) := fun e => h1 (hk.mp e)
        simp [h1, hk2]
  · intro t g
    unfold lkm_usb_release
    cases hp : g.private_data with
    | none => simp [ENODEV]
    | some q => simp
  · intro t g
    unfold lkm_usb_release
    cases hp : g.private_data with
    | none => simp
    | some q => simp [ENODEV]
  · intro t g hg
    simp [lkm_usb_release, hg]

/-- Instance: the handle granted by the first open of id 7 after its attach. -/
theorem release_twice_on_granted_handle_witness :
    (lkm_usb_open scn_attached 7 ⟨none⟩).1 = 0 ∧
    ∃ p r, usb_get_intfdata scn_attached 7 = some p ∧ scn_attached.heap[p]? = some r ∧
      lkm_usb_release
          (lkm_usb_release (lkm_usb_open scn_attached 7 ⟨none⟩).2.2
            (lkm_usb_open scn_attached 7 ⟨none⟩).2.1).2
          (lkm_usb_open scn_attached 7 ⟨none⟩).2.1 =
        (0, ⟨scn_attached.heap.set p ⟨r.iface, 0, r.ispresent, r.kref - 1,
              r.deleted + (if r.kref = 0 then 1 else 0) + (if r.kref = 1 then 1 else 0)⟩,
            scn_attached.intfdata, scn_attached.minors⟩) :=
  ⟨by decide,
    (release_twice_on_granted_handle scn_attached 7 ⟨none⟩ (by decide)).1.imp
      (fun _ hp => hp.imp (fun _ hr => ⟨hr.1, hr.2.1, hr.2.2.2.2⟩))⟩

end LkmUsb
